import Mathlib

set_option maxHeartbeats 1000000

namespace MockToolkit

/-! # Shallow embedding of `mock_toolkit/__init__.py`

The repository is a single Python module.  Strings are modelled by Lean
`String` (a list of unicode code points, matching Python `str`), the JSON
decoder `json.loads` by an executable recursive-descent function over the
character list, the Python `str.split` and `in` by executable functions on
character lists, and an exception escaping a function by `Except.error`.
-/

/-- JSON values as produced by the JSON decoder.  Objects keep their fields
in textual order; numbers keep their lexeme (the toolkit never inspects a
numeric value, it only needs to know the decoded value is not a string). -/
inductive JsonValue : Type where
  | null : JsonValue
  | bool (b : Bool) : JsonValue
  | num (lexeme : String) : JsonValue
  | str (s : String) : JsonValue
  | arr (elems : List JsonValue) : JsonValue
  | obj (fields : List (String × JsonValue)) : JsonValue

/-- JSON inter-token whitespace (the four characters `json` accepts). -/
def isJsonWs (c : Char) : Bool :=
  c == ' ' || c == '\t' || c == '\n' || c == '\r'

/-- Drop leading JSON whitespace. -/
def skipWs : List Char → List Char
  | [] => []
  | c :: cs => if isJsonWs c then skipWs cs else c :: cs

def isDigitCh (c : Char) : Bool := '0' ≤ c && c ≤ '9'

/-- Split a maximal run of decimal digits off the front. -/
def takeDigits : List Char → List Char × List Char
  | [] => ([], [])
  | c :: cs =>
    if isDigitCh c then
      let p := takeDigits cs
      (c :: p.1, p.2)
    else ([], c :: cs)

/-- Integer part of a JSON number: `0`, or a nonzero digit then digits. -/
def parseIntDigits : List Char → Option (List Char × List Char)
  | [] => none
  | c :: cs =>
    if c == '0' then some ([c], cs)
    else if isDigitCh c then
      let p := takeDigits cs
      some (c :: p.1, p.2)
    else none

/-- Optional fraction part `.digits` of a JSON number. -/
def parseFrac : List Char → Option (List Char × List Char)
  | '.' :: cs =>
    match takeDigits cs with
    | ([], _) => none
    | (ds, rest) => some ('.' :: ds, rest)
  | cs => some ([], cs)

/-- Optional exponent part `e[+-]digits` of a JSON number. -/
def parseExp : List Char → Option (List Char × List Char)
  | [] => some ([], [])
  | c :: cs =>
    if c == 'e' || c == 'E' then
      let sc : List Char × List Char :=
        match cs with
        | s :: rest => if s == '+' || s == '-' then ([s], rest) else ([], s :: rest)
        | [] => ([], [])
      match takeDigits sc.2 with
      | ([], _) => none
      | (ds, rest) => some (c :: (sc.1 ++ ds), rest)
    else some ([], c :: cs)

/-- A JSON number token, returned as its lexeme. -/
def parseNumber (cs : List Char) : Option (String × List Char) :=
  let p : List Char × List Char :=
    match cs with
    | '-' :: rest => (['-'], rest)
    | _ => ([], cs)
  match parseIntDigits p.2 with
  | none => none
  | some (ip, cs2) =>
    match parseFrac cs2 with
    | none => none
    | some (fp, cs3) =>
      match parseExp cs3 with
      | none => none
      | some (ep, cs4) => some (String.mk (p.1 ++ ip ++ fp ++ ep), cs4)

/-- Value of one hexadecimal digit (0-9, a-f, A-F), by code point. -/
def hexDigitVal (c : Char) : Option Nat :=
  let n := c.toNat
  if 48 ≤ n ∧ n ≤ 57 then some (n - 48)
  else if 97 ≤ n ∧ n ≤ 102 then some (n - 87)
  else if 65 ≤ n ∧ n ≤ 70 then some (n - 55)
  else none

/-- Four hex digits of a `\uXXXX` escape. -/
def hex4 : List Char → Option (Nat × List Char)
  | a :: b :: c :: d :: rest =>
    match hexDigitVal a, hexDigitVal b, hexDigitVal c, hexDigitVal d with
    | some x, some y, some z, some w => some (((x * 16 + y) * 16 + z) * 16 + w, rest)
    | _, _, _, _ => none
  | _ => none

/-- Body of a JSON string, after the opening quote: escape sequences are
decoded (surrogate pairs are combined), an unescaped control character is
rejected (the decoder runs in strict mode).  `acc` holds the decoded
characters in reverse. -/
def parseStrBody : Nat → List Char → List Char → Option (String × List Char)
  | 0, _, _ => none
  | fuel + 1, acc, cs =>
    match cs with
    | [] => none
    | '"' :: rest => some (String.mk acc.reverse, rest)
    | '\\' :: rest =>
      match rest with
      | [] => none
      | e :: rest2 =>
        if e == '"' then parseStrBody fuel ('"' :: acc) rest2
        else if e == '\\' then parseStrBody fuel ('\\' :: acc) rest2
        else if e == '/' then parseStrBody fuel ('/' :: acc) rest2
        else if e == 'b' then parseStrBody fuel ('\x08' :: acc) rest2
        else if e == 'f' then parseStrBody fuel ('\x0c' :: acc) rest2
        else if e == 'n' then parseStrBody fuel ('\n' :: acc) rest2
        else if e == 'r' then parseStrBody fuel ('\r' :: acc) rest2
        else if e == 't' then parseStrBody fuel ('\t' :: acc) rest2
        else if e == 'u' then
          match hex4 rest2 with
          | none => none
          | some (h, rest3) =>
            if 0xD800 ≤ h && h ≤ 0xDBFF then
              match rest3 with
              | '\\' :: 'u' :: rest4 =>
                match hex4 rest4 with
                | some (l, rest5) =>
                  if 0xDC00 ≤ l && l ≤ 0xDFFF then
                    parseStrBody fuel
                      (Char.ofNat (0x10000 + (h - 0xD800) * 0x400 + (l - 0xDC00)) :: acc) rest5
                  else parseStrBody fuel (Char.ofNat h :: acc) rest3
                | none => parseStrBody fuel (Char.ofNat h :: acc) rest3
              | _ => parseStrBody fuel (Char.ofNat h :: acc) rest3
            else parseStrBody fuel (Char.ofNat h :: acc) rest3
        else none
    | c :: rest =>
      if c.toNat < 32 then none else parseStrBody fuel (c :: acc) rest

mutual

/-- One JSON value: object, array, string, the literal words, or a number.
The fuel only bounds the recursion depth; `jsonLoads` supplies enough. -/
def parseValue : Nat → List Char → Option (JsonValue × List Char)
  | 0, _ => none
  | fuel + 1, cs0 =>
    let cs := skipWs cs0
    match cs with
    | [] => none
    | c :: rest =>
      if c == '\x7b' then
        let cs2 := skipWs rest
        match cs2 with
        | '\x7d' :: rest2 => some (JsonValue.obj [], rest2)
        | _ => parseMembers fuel cs2 []
      else if c == '[' then
        let cs2 := skipWs rest
        match cs2 with
        | ']' :: rest2 => some (JsonValue.arr [], rest2)
        | _ => parseItems fuel cs2 []
      else if c == '"' then
        match parseStrBody (rest.length + 1) [] rest with
        | none => none
        | some (s, rest2) => some (JsonValue.str s, rest2)
      else if List.isPrefixOf ['t', 'r', 'u', 'e'] cs then
        some (JsonValue.bool true, cs.drop 4)
      else if List.isPrefixOf ['f', 'a', 'l', 's', 'e'] cs then
        some (JsonValue.bool false, cs.drop 5)
      else if List.isPrefixOf ['n', 'u', 'l', 'l'] cs then
        some (JsonValue.null, cs.drop 4)
      else if List.isPrefixOf ['N', 'a', 'N'] cs then
        some (JsonValue.num "NaN", cs.drop 3)
      else if List.isPrefixOf ['I', 'n', 'f', 'i', 'n', 'i', 't', 'y'] cs then
        some (JsonValue.num "Infinity", cs.drop 8)
      else if List.isPrefixOf ['-', 'I', 'n', 'f', 'i', 'n', 'i', 't', 'y'] cs then
        some (JsonValue.num "-Infinity", cs.drop 9)
      else
        match parseNumber cs with
        | none => none
        | some (lex, rest2) => some (JsonValue.num lex, rest2)

/-- The members of a nonempty JSON object, positioned at a key. -/
def parseMembers : Nat → List Char → List (String × JsonValue) →
    Option (JsonValue × List Char)
  | 0, _, _ => none
  | fuel + 1, cs, acc =>
    match cs with
    | '"' :: rest =>
      match parseStrBody (rest.length + 1) [] rest with
      | none => none
      | some (key, rest2) =>
        match skipWs rest2 with
        | ':' :: rest3 =>
          match parseValue fuel (skipWs rest3) with
          | none => none
          | some (v, rest4) =>
            match skipWs rest4 with
            | ',' :: rest5 => parseMembers fuel (skipWs rest5) ((key, v) :: acc)
            | '\x7d' :: rest5 => some (JsonValue.obj ((key, v) :: acc).reverse, rest5)
            | _ => none
        | _ => none
    | _ => none

/-- The items of a nonempty JSON array, positioned at a value. -/
def parseItems : Nat → List Char → List JsonValue → Option (JsonValue × List Char)
  | 0, _, _ => none
  | fuel + 1, cs, acc =>
    match parseValue fuel cs with
    | none => none
    | some (v, rest) =>
      match skipWs rest with
      | ',' :: rest2 => parseItems fuel (skipWs rest2) (v :: acc)
      | ']' :: rest2 => some (JsonValue.arr (v :: acc).reverse, rest2)
      | _ => none

end

/-- Model of `json.loads`: decode one JSON document, demand that nothing
but whitespace follows, and report failure (a `JSONDecodeError`) as `none`. -/
def jsonLoads (s : String) : Option JsonValue :=
  match parseValue (2 * s.data.length + 2) s.data with
  | none => none
  | some (v, rest) =>
    match skipWs rest with
    | [] => some v
    | _ => none

/-- First occurrence of `sep` in `s`: the part before it and the part after
it.  `none` when `sep` does not occur.  This is the search underlying both
the Python `in` test and `str.split`. -/
def findSplit (sep : List Char) : List Char → Option (List Char × List Char)
  | [] => none
  | c :: rest =>
    if List.isPrefixOf sep (c :: rest) then some ([], (c :: rest).drop sep.length)
    else
      match findSplit sep rest with
      | none => none
      | some (pre, post) => some (c :: pre, post)

/-- Model of the Python substring test `sub in s` (for nonempty `sub`). -/
def pyIn (sub s : String) : Bool := (findSplit sub.data s.data).isSome

/-- Model of Python `s.split(sep)`: repeatedly cut at the first occurrence
of `sep`.  The fuel is only an upper bound on the number of cuts. -/
def pySplitF (sep : List Char) : Nat → List Char → List (List Char)
  | 0, s => [s]
  | fuel + 1, s =>
    match findSplit sep s with
    | none => [s]
    | some (pre, post) => pre :: pySplitF sep fuel post

def pySplit (sep s : List Char) : List (List Char) := pySplitF sep (s.length + 1) s

/-! ## The toolkit, translated from the source -/

/-- Model of Python `str.lower()`, applied characterwise (ASCII case
folding; every keyword and label the toolkit compares is ASCII). -/
def pyLower (s : String) : String := String.mk (s.data.map Char.toLower)

/-- The marker the mock client uses to find the user text in the prompt. -/
def userMarker : String := "User input: "

/-- The keyword group selecting `retrieve_and_answer` in `MockLLMClient.chat`. -/
def kwRetrieve : List String := ["rate", "inflation", "monetary"]

/-- The keyword group selecting `classify_only` in `MockLLMClient.chat`. -/
def kwClassify : List String := ["classify", "label", "topic"]

/-- The user-text extraction in `MockLLMClient.chat`: if the marker occurs,
Python `prompt.split("User input: ")[-1].lower()` (the last piece of the
split), otherwise `prompt.lower()`. -/
def chatUserPart (prompt : String) : String :=
  if pyIn userMarker prompt then
    pyLower (String.mk ((pySplit userMarker.data prompt.data).getLastD prompt.data))
  else
    pyLower prompt

/-- The keyword selection in `MockLLMClient.chat`, applied to the extracted
lower-cased user text: the three fixed JSON action strings of the source. -/
def chatPick (user_part : String) : String :=
  if kwRetrieve.any (fun kw => pyIn kw user_part) then
    "\x7b\"action\": \"retrieve_and_answer\"\x7d"
  else if kwClassify.any (fun kw => pyIn kw user_part) then
    "\x7b\"action\": \"classify_only\"\x7d"
  else
    "\x7b\"action\": \"refuse\"\x7d"

/-- `MockLLMClient.chat`, translated from the source. -/
def chat (prompt : String) : String := chatPick (chatUserPart prompt)

/-- `ALLOWED_ACTIONS`: a Python set of three strings, modelled as the list
of its elements (only membership is ever used). -/
def ALLOWED_ACTIONS : List String := ["retrieve_and_answer", "classify_only", "refuse"]

def REFUSAL_TEXT : String := "Refused: I am not authorised to act on this request."

/-- `classify_only`, translated from the source: three keyword groups
tried in order on the lower-cased text, with a fallback label. -/
def classify_only (text : String) : String :=
  let text_lower := pyLower text
  if ["rate", "inflation", "monetary", "central bank"].any (fun kw => pyIn kw text_lower) then
    "Topic: Interest Rates & Monetary Policy"
  else if ["loan", "mortgage", "lending", "credit"].any (fun kw => pyIn kw text_lower) then
    "Topic: Lending & Credit"
  else if ["stock", "equity", "market", "earning"].any (fun kw => pyIn kw text_lower) then
    "Topic: Equity Markets"
  else
    "Topic: Out of Domain"

/-- `KNOWLEDGE_BASE`: a Python dict, modelled as its key/value pairs in
insertion order (iteration follows this order). -/
def KNOWLEDGE_BASE : List (String × String) :=
  [("rate",
    "The central bank raised interest rates by 25 basis points to combat persistent inflation."),
   ("inflation",
    "Inflation remained elevated at 4.2% year-on-year, driven by energy prices."),
   ("mortgage",
    "Mortgage rates reached a two-decade high, causing home sales to decline 15%."),
   ("loan",
    "Lending standards tightened as banks responded to higher funding costs."),
   ("monetary",
    "The dual mandate requires balancing maximum employment with price stability.")]

/-- `retrieve_and_answer`, translated from the source: first knowledge-base
entry (in insertion order) whose keyword occurs in the lower-cased question. -/
def retrieve_and_answer (question : String) : String :=
  let question_lower := pyLower question
  match KNOWLEDGE_BASE.find? (fun kv => pyIn kv.1 question_lower) with
  | some kv => "Based on retrieved documents: " ++ kv.2
  | none => "Based on retrieved documents: No relevant information found."

/-- `refuse`, translated from the source (a nullary Python function). -/
def refuse : Unit → String := fun _ => REFUSAL_TEXT

/-- Field lookup on a decoded JSON object, modelling Python dict lookup
after `json.loads`: a duplicated key keeps its last value. -/
def objGet (fields : List (String × JsonValue)) (key : String) : Option JsonValue :=
  match fields.reverse.find? (fun kv => kv.1 == key) with
  | none => none
  | some kv => some kv.2

/-- The Python test `action not in ALLOWED_ACTIONS`.  Set membership hashes
the candidate first, so an unhashable decoded value (a JSON array or
object) raises a `TypeError` — which `decide_action` does not catch —
instead of answering; every other decoded value is hashable, and only a
string can equal a member of the set. -/
def notInAllowed : JsonValue → Except String Bool
  | JsonValue.arr _ => Except.error "TypeError: unhashable type: list"
  | JsonValue.obj _ => Except.error "TypeError: unhashable type: dict"
  | JsonValue.str s => Except.ok (!(ALLOWED_ACTIONS.contains s))
  | _ => Except.ok true

/-- The fixed prompt template `decide_action` builds around the user input. -/
def promptFor (user_input : String) : String :=
  "Choose exactly one action: retrieve_and_answer, classify_only, refuse\n" ++
  "Return ONLY valid JSON: \x7b\"action\": \"<action>\"\x7d\n" ++
  "User input: " ++ user_input

/-- The `try` block of `decide_action`:
`action = json.loads(raw).get("action", "refuse")` with `JSONDecodeError`
and `AttributeError` caught and absorbed into `"refuse"`.  A decode
failure is `jsonLoads = none`; `.get` on a decoded non-dict raises the
caught `AttributeError`; `.get` returns the default `"refuse"` when the
key is absent. -/
def decodedAction (j : Option JsonValue) : JsonValue :=
  match j with
  | some (JsonValue.obj fields) => (objGet fields "action").getD (JsonValue.str "refuse")
  | _ => JsonValue.str "refuse"

/-- The tail of `decide_action`:
`if action not in ALLOWED_ACTIONS: action = "refuse"` then `return action`.
The membership test can raise (see `notInAllowed`); on the normal path the
returned value is the string it was compared as. -/
def validateAction (action : JsonValue) : Except String String :=
  match notInAllowed action with
  | Except.error e => Except.error e
  | Except.ok true => Except.ok "refuse"
  | Except.ok false =>
    match action with
    | JsonValue.str s => Except.ok s
    | _ => Except.ok "refuse"

/-- The body of `decide_action` applied to the raw reply of the chooser. -/
def actionOfRaw (raw : String) : Except String String :=
  validateAction (decodedAction (jsonLoads raw))

/-- `decide_action`, translated from the source.  The chooser object with
its `chat` method is modelled by its prompt-to-reply function; a normal
return is `Except.ok`, an exception escaping the function is `Except.error`. -/
def decide_action (chatFn : String → String) (user_input : String) : Except String String :=
  actionOfRaw (chatFn (promptFor user_input))

/-! ## Lemmas about the occurrence search and the split -/

theorem findSplit_some_eq (sep : List Char) :
    ∀ s pre post, findSplit sep s = some (pre, post) → s = pre ++ sep ++ post := by
  intro s
  induction s with
  | nil => intro pre post h; simp [findSplit] at h
  | cons c rest ih =>
    intro pre post h
    simp only [findSplit] at h
    by_cases hp : List.isPrefixOf sep (c :: rest)
    · rw [if_pos hp] at h
      simp only [Option.some.injEq, Prod.mk.injEq] at h
      obtain ⟨h1, h2⟩ := h
      subst h1; subst h2
      have hpre : sep <+: c :: rest := List.isPrefixOf_iff_prefix.mp hp
      have := List.prefix_iff_eq_append.mp hpre
      simpa using this.symm
    · rw [if_neg hp] at h
      cases heq : findSplit sep rest with
      | none => rw [heq] at h; simp at h
      | some pp =>
        obtain ⟨pre2, post2⟩ := pp
        rw [heq] at h
        simp only [Option.some.injEq, Prod.mk.injEq] at h
        obtain ⟨h1, h2⟩ := h
        subst h1; subst h2
        have := ih pre2 post2 heq
        simp [this]

theorem findSplit_none_no_occurrence (sep : List Char) (hsep : sep ≠ []) :
    ∀ s, findSplit sep s = none → ¬ sep <:+: s := by
  intro s
  induction s with
  | nil =>
    intro _ hinf
    exact hsep (List.eq_nil_of_infix_nil hinf)
  | cons c rest ih =>
    intro h hinf
    simp only [findSplit] at h
    by_cases hp : List.isPrefixOf sep (c :: rest)
    · rw [if_pos hp] at h; simp at h
    · rw [if_neg hp] at h
      cases heq : findSplit sep rest with
      | none =>
        rcases List.infix_cons_iff.mp hinf with hpre | hinf2
        · have hp2 := List.isPrefixOf_iff_prefix.mpr hpre
          exact hp hp2
        · exact ih heq hinf2
      | some pp => rw [heq] at h; simp at h

theorem findSplit_isSome_iff (sep : List Char) (hsep : sep ≠ []) (s : List Char) :
    (findSplit sep s).isSome = true ↔ sep <:+: s := by
  constructor
  · intro h
    cases heq : findSplit sep s with
    | none => rw [heq] at h; simp at h
    | some pp =>
      obtain ⟨pre, post⟩ := pp
      exact ⟨pre, post, (findSplit_some_eq sep s pre post heq).symm⟩
  · intro h
    cases heq : findSplit sep s with
    | some pp => simp [heq]
    | none => exact absurd h (findSplit_none_no_occurrence sep hsep s heq)

theorem pyIn_iff (sub s : String) (h : sub.data ≠ []) :
    pyIn sub s = true ↔ sub.data <:+: s.data := by
  unfold pyIn
  exact findSplit_isSome_iff sub.data h s.data

theorem findSplit_post_lt (sep : List Char) (hsep : sep ≠ []) (s pre post : List Char)
    (h : findSplit sep s = some (pre, post)) : post.length < s.length := by
  have hs := findSplit_some_eq sep s pre post h
  have hlen : 0 < sep.length := List.length_pos.mpr hsep
  rw [hs]
  simp [List.length_append]
  omega

theorem pySplitF_ne_nil (sep : List Char) (f : Nat) (s : List Char) :
    pySplitF sep f s ≠ [] := by
  cases f with
  | zero => simp [pySplitF]
  | succ f =>
    simp only [pySplitF]
    cases h : findSplit sep s with
    | none => simp
    | some pp => simp

theorem getLastD_irrel {α : Type} (l : List α) (h : l ≠ []) (d d' : α) :
    l.getLastD d = l.getLastD d' := by
  cases l with
  | nil => exact absurd rfl h
  | cons a t => rw [List.getLastD_cons, List.getLastD_cons]

theorem pySplitF_of_none (sep : List Char) (f : Nat) (s : List Char)
    (h : findSplit sep s = none) : pySplitF sep f s = [s] := by
  cases f <;> simp [pySplitF, h]

theorem pySplitF_last_decomp (sep : List Char) (hsep : sep ≠ []) :
    ∀ f s, s.length < f → sep <:+: s →
      ∃ q, s = q ++ sep ++ ((pySplitF sep f s).getLastD s) ∧
        ¬ sep <:+: ((pySplitF sep f s).getLastD s) := by
  intro f
  induction f with
  | zero => intro s hlt _; exact absurd hlt (Nat.not_lt_zero _)
  | succ f ih =>
    intro s hlt hinf
    have hsome := (findSplit_isSome_iff sep hsep s).mpr hinf
    cases heq : findSplit sep s with
    | none => rw [heq] at hsome; simp at hsome
    | some pp =>
      obtain ⟨pre, post⟩ := pp
      have hs : s = pre ++ sep ++ post := findSplit_some_eq sep s pre post heq
      have hpostlen : post.length < s.length := findSplit_post_lt sep hsep s pre post heq
      simp only [pySplitF, heq, List.getLastD_cons]
      by_cases hpi : sep <:+: post
      · obtain ⟨q, hq, hni⟩ := ih post (by omega) hpi
        have hne := pySplitF_ne_nil sep f post
        rw [getLastD_irrel _ hne pre post]
        set T := (pySplitF sep f post).getLastD post with hT
        refine ⟨pre ++ sep ++ q, ?_, hni⟩
        rw [hs, hq]
        simp [List.append_assoc]
      · have hnone : findSplit sep post = none := by
          cases heq2 : findSplit sep post with
          | none => rfl
          | some pp2 =>
            obtain ⟨pre2, post2⟩ := pp2
            exact absurd ⟨pre2, post2, (findSplit_some_eq sep post pre2 post2 heq2).symm⟩ hpi
        rw [pySplitF_of_none sep f post hnone]
        refine ⟨pre, ?_, ?_⟩
        · simpa using hs
        · simpa using hpi

theorem last_decomp_unique_aux (sep : List Char)
    (hov : ∀ t, t <+: sep → t <:+ sep → t = [] ∨ t = sep)
    (q L a b : List Char)
    (h : q ++ sep ++ L = a ++ sep ++ b)
    (hlen : b.length ≤ L.length) (hL : ¬ sep <:+: L) : L = b := by
  have h1 : sep ++ b <:+ sep ++ L := by
    have hx : sep ++ b <:+ a ++ sep ++ b := by
      rw [List.append_assoc]
      exact List.suffix_append a (sep ++ b)
    rw [← h] at hx
    have hy : sep ++ L <:+ q ++ sep ++ L := by
      rw [List.append_assoc]
      exact List.suffix_append q (sep ++ L)
    apply List.suffix_of_suffix_length_le hx hy
    simp [List.length_append]
    omega
  obtain ⟨u, hu⟩ := h1
  by_cases hu0 : u = []
  · rw [hu0] at hu
    simp at hu
    exact hu.symm
  · by_cases hle : sep.length ≤ u.length
    · have hsp : sep <+: u ++ (sep ++ b) := by
        rw [hu]; exact List.prefix_append sep L
      have hup : u <+: u ++ (sep ++ b) := List.prefix_append u (sep ++ b)
      have husep : sep <+: u := List.prefix_of_prefix_length_le hsp hup hle
      obtain ⟨u2, hu2⟩ := husep
      exfalso
      apply hL
      have h3 : sep ++ L = sep ++ (u2 ++ (sep ++ b)) := by
        rw [← hu, ← hu2]
        simp [List.append_assoc]
      have hL2 : L = u2 ++ (sep ++ b) := List.append_cancel_left h3
      exact ⟨u2, b, by rw [hL2, List.append_assoc]⟩
    · push_neg at hle
      have hup : u <+: sep ++ L := by
        rw [← hu]; exact List.prefix_append u (sep ++ b)
      have hsp : sep <+: sep ++ L := List.prefix_append sep L
      have husep : u <+: sep := List.prefix_of_prefix_length_le hup hsp (Nat.le_of_lt hle)
      obtain ⟨t, ht⟩ := husep
      have htL : t ++ L = sep ++ b := by
        have h3 : u ++ (t ++ L) = u ++ (sep ++ b) := by
          rw [← List.append_assoc, ht, hu]
        exact List.append_cancel_left h3
      have hts : t <:+ sep := ⟨u, ht⟩
      have htp : t <+: sep := by
        have h4 : t <+: sep ++ b := by rw [← htL]; exact List.prefix_append t L
        have h5 : sep <+: sep ++ b := List.prefix_append sep b
        apply List.prefix_of_prefix_length_le h4 h5
        have h6 := congrArg List.length ht
        simp [List.length_append] at h6
        omega
      rcases hov t htp hts with ht0 | htsep
      · rw [ht0] at ht
        simp at ht
        rw [ht] at hle
        exact absurd hle (lt_irrefl _)
      · rw [htsep] at ht
        have h7 := congrArg List.length ht
        simp [List.length_append] at h7
        exact absurd h7 hu0

theorem last_decomp_unique (sep : List Char)
    (hov : ∀ t, t <+: sep → t <:+ sep → t = [] ∨ t = sep)
    (q L a b : List Char)
    (h : q ++ sep ++ L = a ++ sep ++ b)
    (hL : ¬ sep <:+: L) (hb : ¬ sep <:+: b) : L = b := by
  rcases Nat.le_total b.length L.length with hle | hle
  · exact last_decomp_unique_aux sep hov q L a b h hle hL
  · exact (last_decomp_unique_aux sep hov a b q L h.symm hle hb).symm

/-- The marker `"User input: "` has no self-overlap: none of its proper
nonempty prefixes is one of its suffixes. -/
theorem marker_no_overlap :
    ∀ t : List Char, t <+: userMarker.data → t <:+ userMarker.data →
      t = [] ∨ t = userMarker.data := by
  intro t hp hs
  have hM : userMarker.data.length = 12 := by decide
  have hlen : t.length ≤ 12 := by rw [← hM]; exact hp.length_le
  have ht : t = userMarker.data.take t.length := List.prefix_iff_eq_take.mp hp
  have hd : t = userMarker.data.drop (userMarker.data.length - t.length) :=
    List.suffix_iff_eq_drop.mp hs
  have key : ∀ n, n ≤ 12 → n = 0 ∨ n = 12 ∨
      userMarker.data.take n ≠ userMarker.data.drop (12 - n) := by decide
  rcases key t.length hlen with h0 | h12 | hne
  · exact Or.inl (List.eq_nil_of_length_eq_zero h0)
  · refine Or.inr ?_
    rw [ht, h12, ← hM]
    exact List.take_length _
  · exfalso
    apply hne
    rw [hM] at hd
    rw [← ht]
    exact hd

theorem pySplit_last_of_append (a b : List Char)
    (hb : ¬ userMarker.data <:+: b) :
    (pySplit userMarker.data (a ++ userMarker.data ++ b)).getLastD
      (a ++ userMarker.data ++ b) = b := by
  have hsep : userMarker.data ≠ [] := by decide
  have hinf : userMarker.data <:+: a ++ userMarker.data ++ b := ⟨a, b, rfl⟩
  obtain ⟨q, hq, hni⟩ := pySplitF_last_decomp userMarker.data hsep
    ((a ++ userMarker.data ++ b).length + 1) (a ++ userMarker.data ++ b)
    (Nat.lt_succ_self _) hinf
  exact last_decomp_unique userMarker.data marker_no_overlap q _ a b hq.symm hni hb

/-! ## Spec-side definitions (transcribed from the wording of the specification,
to be compared with the source-translated functions) and predicates used in
claim statements -/

/-- The chooser selection rule as the specification words it: lower-case
the text following the marker (or the whole prompt if the marker is
absent); pick by the two keyword groups, defaulting to refuse. -/
def chatSpec (prompt : String) : String :=
  let part :=
    if pyIn userMarker prompt then
      String.mk ((pySplit userMarker.data prompt.data).getLastD prompt.data)
    else prompt
  let low := pyLower part
  if pyIn "rate" low || pyIn "inflation" low || pyIn "monetary" low then
    "\x7b\"action\": \"retrieve_and_answer\"\x7d"
  else if pyIn "classify" low || pyIn "label" low || pyIn "topic" low then
    "\x7b\"action\": \"classify_only\"\x7d"
  else
    "\x7b\"action\": \"refuse\"\x7d"

/-- The bare action name the keyword rule of the mock chooser selects. -/
def chatActionName (p : String) : String :=
  if kwRetrieve.any (fun kw => pyIn kw (chatUserPart p)) then "retrieve_and_answer"
  else if kwClassify.any (fun kw => pyIn kw (chatUserPart p)) then "classify_only"
  else "refuse"

/-- The classifier rule as the specification words it: four fixed labels,
first matching keyword group wins, in the stated priority order. -/
def classifySpecLabel (text : String) : String :=
  let low := pyLower text
  if pyIn "rate" low || pyIn "inflation" low || pyIn "monetary" low ||
      pyIn "central bank" low then
    "Topic: Interest Rates & Monetary Policy"
  else if pyIn "loan" low || pyIn "mortgage" low || pyIn "lending" low ||
      pyIn "credit" low then
    "Topic: Lending & Credit"
  else if pyIn "stock" low || pyIn "equity" low || pyIn "market" low ||
      pyIn "earning" low then
    "Topic: Equity Markets"
  else
    "Topic: Out of Domain"

/-- The retrieval rule as the specification words it: the five entries
tried in insertion order, first keyword occurring in the lower-cased
question wins; fixed fallback sentence. -/
def retrieveSpec (question : String) : String :=
  let low := pyLower question
  if pyIn "rate" low then
    "Based on retrieved documents: The central bank raised interest rates by 25 basis points to combat persistent inflation."
  else if pyIn "inflation" low then
    "Based on retrieved documents: Inflation remained elevated at 4.2% year-on-year, driven by energy prices."
  else if pyIn "mortgage" low then
    "Based on retrieved documents: Mortgage rates reached a two-decade high, causing home sales to decline 15%."
  else if pyIn "loan" low then
    "Based on retrieved documents: Lending standards tightened as banks responded to higher funding costs."
  else if pyIn "monetary" low then
    "Based on retrieved documents: The dual mandate requires balancing maximum employment with price stability."
  else
    "Based on retrieved documents: No relevant information found."

/-- Is the decoded JSON value an object (a Python dict)? -/
def isObj : JsonValue → Bool
  | JsonValue.obj _ => true
  | _ => false

/-- Is the decoded JSON value hashable in Python (not a list or dict)? -/
def isHashable : JsonValue → Bool
  | JsonValue.arr _ => false
  | JsonValue.obj _ => false
  | _ => true

/-- Does the decoded JSON value equal a member of `ALLOWED_ACTIONS`?
Only a string can. -/
def jsonMemAllowed : JsonValue → Bool
  | JsonValue.str s => ALLOWED_ACTIONS.contains s
  | _ => false

/-! ## Lemmas about `chat` -/

theorem mk_data (s : String) : String.mk s.data = s := by
  cases s
  rfl

theorem chatUserPart_append (a b : String) (hb : pyIn userMarker b = false) :
    chatUserPart (a ++ userMarker ++ b) = pyLower b := by
  have hMne : userMarker.data ≠ [] := by decide
  have hbni : ¬ userMarker.data <:+: b.data := by
    intro hinf
    have h2 := (pyIn_iff userMarker b hMne).mpr hinf
    rw [h2] at hb
    exact Bool.noConfusion hb
  have hdata : (a ++ userMarker ++ b).data = a.data ++ userMarker.data ++ b.data := rfl
  have hin : pyIn userMarker (a ++ userMarker ++ b) = true := by
    rw [pyIn_iff _ _ hMne, hdata]
    exact ⟨a.data, b.data, rfl⟩
  unfold chatUserPart
  rw [hin]
  simp only [if_true]
  rw [hdata, pySplit_last_of_append a.data b.data hbni, mk_data]

theorem chat_eq_cases (p : String) :
    (chat p = "\x7b\"action\": \"retrieve_and_answer\"\x7d" ∧
      chatActionName p = "retrieve_and_answer") ∨
    (chat p = "\x7b\"action\": \"classify_only\"\x7d" ∧
      chatActionName p = "classify_only") ∨
    (chat p = "\x7b\"action\": \"refuse\"\x7d" ∧ chatActionName p = "refuse") := by
  unfold chat chatPick chatActionName
  by_cases h1 : kwRetrieve.any (fun kw => pyIn kw (chatUserPart p)) = true
  · left
    simp [h1]
  · by_cases h2 : kwClassify.any (fun kw => pyIn kw (chatUserPart p)) = true
    · right; left
      simp [h1, h2]
    · right; right
      simp [h1, h2]

/-! ## The claims -/

/-- C1.  The claim says `decide_action` never surfaces an error to the
caller: every failure to determine a valid action is absorbed into
`"refuse"`.  The code violates this (contradicting its own docstring,
which promises a fallback to refuse on any error): a chooser that returns
the JSON text with an array action value drives the membership test
`action not in ALLOWED_ACTIONS` to hash an unhashable list, and the
resulting `TypeError` escapes `decide_action` uncaught. -/
theorem claim_C1 :
    decide_action (fun _ => "\x7b\"action\": [1]\x7d") "please retrieve" =
      Except.error "TypeError: unhashable type: list" ∧
    ∀ r : String,
      decide_action (fun _ => "\x7b\"action\": [1]\x7d") "please retrieve" ≠ Except.ok r := by
  refine ⟨rfl, ?_⟩
  intro r h
  have h0 : decide_action (fun _ => "\x7b\"action\": [1]\x7d") "please retrieve" =
      Except.error "TypeError: unhashable type: list" := rfl
  rw [h0] at h
  exact Except.noConfusion h

/-- C2.  For every chooser and user input: if the reply of the chooser does not
decode as JSON, or decodes to a non-object, or decodes to an object with
no `action` field, then `decide_action` returns `"refuse"`. -/
theorem claim_C2 (chatFn : String → String) (u : String)
    (h : jsonLoads (chatFn (promptFor u)) = none ∨
      (∃ v, jsonLoads (chatFn (promptFor u)) = some v ∧ isObj v = false) ∨
      (∃ fields, jsonLoads (chatFn (promptFor u)) = some (JsonValue.obj fields) ∧
        objGet fields "action" = none)) :
    decide_action chatFn u = Except.ok "refuse" := by
  unfold decide_action actionOfRaw
  rcases h with h | ⟨v, hv, hobj⟩ | ⟨fields, hf, hget⟩
  · rw [h]
    rfl
  · rw [hv]
    cases v with
    | obj fields => simp [isObj] at hobj
    | null => rfl
    | bool b => rfl
    | num n => rfl
    | str s => rfl
    | arr l => rfl
  · rw [hf]
    simp only [decodedAction]
    rw [hget]
    rfl

/-- Witness for C2 at a concrete chooser returning the non-JSON reply
`"not json"`. -/
theorem claim_C2_witness :
    decide_action (fun _ => "not json") "hello" = Except.ok "refuse" :=
  claim_C2 (fun _ => "not json") "hello" (Or.inl rfl)

/-- C3, amended.  The original claim quantifies over every decoded action
value outside the allow-list; an unhashable value (JSON array or object)
instead raises the uncaught `TypeError` exhibited in the counterexample.
As amended: if the `action` value of the object is a hashable JSON value
(string, number, boolean or null) that is not a member of the allowed
action set, `decide_action` returns `"refuse"`. -/
theorem claim_C3 (chatFn : String → String) (u : String)
    (fields : List (String × JsonValue)) (v : JsonValue)
    (h1 : jsonLoads (chatFn (promptFor u)) = some (JsonValue.obj fields))
    (h2 : objGet fields "action" = some v)
    (h3 : isHashable v = true)
    (h4 : jsonMemAllowed v = false) :
    decide_action chatFn u = Except.ok "refuse" := by
  unfold decide_action actionOfRaw
  rw [h1]
  simp only [decodedAction]
  rw [h2]
  cases v with
  | str s =>
    simp only [jsonMemAllowed] at h4
    simp only [Option.getD_some, validateAction, notInAllowed]
    rw [h4]
    rfl
  | arr l => simp [isHashable] at h3
  | obj l => simp [isHashable] at h3
  | null => rfl
  | bool b => rfl
  | num n => rfl

/-- Witness for C3 at the example given by the spec: a chooser returning the
not-allowed string action `delete_everything`. -/
theorem claim_C3_witness :
    decide_action (fun _ => "\x7b\"action\": \"delete_everything\"\x7d") "x" =
      Except.ok "refuse" :=
  claim_C3 (fun _ => "\x7b\"action\": \"delete_everything\"\x7d") "x"
    [("action", JsonValue.str "delete_everything")]
    (JsonValue.str "delete_everything") rfl rfl rfl rfl

/-- Counterexample to C3 as stated: the decoded `action` value `{}` is not
a member of the allowed set, yet `decide_action` does not return
`"refuse"` — the membership test raises. -/
theorem claim_C3_counterexample :
    jsonLoads "\x7b\"action\": \x7b\x7d\x7d" =
      some (JsonValue.obj [("action", JsonValue.obj [])]) ∧
    jsonMemAllowed (JsonValue.obj []) = false ∧
    decide_action (fun _ => "\x7b\"action\": \x7b\x7d\x7d") "x" =
      Except.error "TypeError: unhashable type: dict" ∧
    decide_action (fun _ => "\x7b\"action\": \x7b\x7d\x7d") "x" ≠ Except.ok "refuse" := by
  refine ⟨rfl, rfl, rfl, ?_⟩
  intro h
  have h0 : decide_action (fun _ => "\x7b\"action\": \x7b\x7d\x7d") "x" =
      Except.error "TypeError: unhashable type: dict" := rfl
  rw [h0] at h
  exact Except.noConfusion h

/-- C4.  For every prompt, `MockLLMClient.chat` equals the selection rule
of the specification: lower-case the text following the marker (or the whole
prompt if the marker is absent) and return exactly the JSON string for
`retrieve_and_answer`, `classify_only` or `refuse` by the two keyword
groups. -/
theorem claim_C4 : ∀ p : String, chat p = chatSpec p := by
  intro p
  unfold chat chatPick chatUserPart chatSpec kwRetrieve kwClassify
  by_cases hm : pyIn userMarker p = true <;>
    simp [hm, List.any_cons, List.any_nil, Bool.or_assoc]

/-- Counterexample to C5 as stated: the input `"rate User input: hello"`
contains the keyword `rate`, yet `chat` returns the refuse JSON string,
because only the text after the last marker is consulted. -/
theorem claim_C5_counterexample :
    pyIn "rate" "rate User input: hello" = true ∧
    chat "rate User input: hello" = "\x7b\"action\": \"refuse\"\x7d" ∧
    chat "rate User input: hello" ≠ "\x7b\"action\": \"retrieve_and_answer\"\x7d" := by
  refine ⟨rfl, rfl, ?_⟩
  intro h
  have h0 : chat "rate User input: hello" = "\x7b\"action\": \"refuse\"\x7d" := rfl
  rw [h0] at h
  exact absurd h (by decide)

/-- C5, amended.  The original claim quantifies over every input to `chat`
containing a retrieval keyword; keywords before the final marker are
ignored (counterexample above).  As amended: for every input whose
extracted user part — the lower-cased text after the last occurrence of
the marker, or the whole input when the marker is absent — contains
`rate`, `inflation` or `monetary`, `chat` returns exactly the JSON string
encoding `retrieve_and_answer`. -/
theorem claim_C5 (p : String)
    (h : kwRetrieve.any (fun kw => pyIn kw (chatUserPart p)) = true) :
    chat p = "\x7b\"action\": \"retrieve_and_answer\"\x7d" := by
  unfold chat chatPick
  simp [h]

/-- Witness for C5 at a concrete mixed-case input without the marker. -/
theorem claim_C5_witness :
    chat "What is the inflation RATE?" = "\x7b\"action\": \"retrieve_and_answer\"\x7d" :=
  claim_C5 "What is the inflation RATE?" rfl

/-- C6.  `classify_only` equals the rule of the specification — four fixed
labels, case-insensitive substring matching, first matching group wins in
the stated priority order — and on `"central bank raised rates"`, which
matches group 1 and group 2, it returns the label of group 1. -/
theorem claim_C6 :
    (∀ t : String, classify_only t = classifySpecLabel t) ∧
    classify_only "central bank raised rates" = "Topic: Interest Rates & Monetary Policy" := by
  constructor
  · intro t
    unfold classify_only classifySpecLabel
    simp [List.any_cons, List.any_nil, Bool.or_assoc]
  · rfl

/-- C7.  `retrieve_and_answer` equals the rule of the specification — the five
knowledge-base entries tried in insertion order `rate, inflation,
mortgage, loan, monetary`, first keyword occurring in the lower-cased
question wins, answers prefixed with the retrieval banner, fixed fallback
sentence — and `"What about mortgage trends?"` gets the answer of the
mortgage entry (insertion order breaks the tie). -/
theorem claim_C7 :
    (∀ q : String, retrieve_and_answer q = retrieveSpec q) ∧
    KNOWLEDGE_BASE.map Prod.fst = ["rate", "inflation", "mortgage", "loan", "monetary"] ∧
    retrieve_and_answer "What about mortgage trends?" =
      "Based on retrieved documents: Mortgage rates reached a two-decade high, causing home sales to decline 15%." := by
  refine ⟨?_, rfl, rfl⟩
  intro q
  unfold retrieve_and_answer retrieveSpec KNOWLEDGE_BASE
  by_cases h1 : pyIn "rate" (pyLower q) = true
  · simp [List.find?, h1]
  · by_cases h2 : pyIn "inflation" (pyLower q) = true
    · simp [List.find?, h1, h2]
    · by_cases h3 : pyIn "mortgage" (pyLower q) = true
      · simp [List.find?, h1, h2, h3]
      · by_cases h4 : pyIn "loan" (pyLower q) = true
        · simp [List.find?, h1, h2, h3, h4]
        · by_cases h5 : pyIn "monetary" (pyLower q) = true
          · simp [List.find?, h1, h2, h3, h4, h5]
          · simp [List.find?, h1, h2, h3, h4, h5]

/-- C8.  `refuse` takes no input and always returns the identical fixed
refusal string: any two calls agree, and the value is the literal. -/
theorem claim_C8 :
    (∀ u v : Unit, refuse u = refuse v) ∧
    refuse () = REFUSAL_TEXT ∧
    refuse () = "Refused: I am not authorised to act on this request." :=
  ⟨fun _ _ => rfl, rfl, rfl⟩

/-- C9.  For every prompt the mock chooser returns one of three literal
JSON strings; for every user input, that reply decodes to an object whose
`action` field is the choice of the keyword rule, the choice is in the allowed
set, and `decide_action` with the mock chooser returns it — neither
fallback branch (decode failure, not-allowed action) ever fires. -/
theorem claim_C9 : ∀ u : String,
    jsonLoads (chat (promptFor u)) =
      some (JsonValue.obj [("action", JsonValue.str (chatActionName (promptFor u)))]) ∧
    ALLOWED_ACTIONS.contains (chatActionName (promptFor u)) = true ∧
    decide_action chat u = Except.ok (chatActionName (promptFor u)) := by
  intro u
  unfold decide_action
  rcases chat_eq_cases (promptFor u) with ⟨hc, hn⟩ | ⟨hc, hn⟩ | ⟨hc, hn⟩ <;>
    rw [hc, hn] <;> exact ⟨rfl, rfl, rfl⟩

/-- C10.  Only the text after the last occurrence of the marker
`"User input: "` is used by `chat` for keyword selection: whatever stands
before that occurrence (including earlier markers and keywords), the
reply is the keyword pick on the final part alone. -/
theorem claim_C10 (a b : String) (hb : pyIn userMarker b = false) :
    chat (a ++ userMarker ++ b) = chatPick (pyLower b) := by
  unfold chat
  rw [chatUserPart_append a b hb]

/-- Witness for C10: the marker occurs twice, `rate` stands before the
final occurrence, and the reply is the refuse JSON string. -/
theorem claim_C10_witness :
    pyIn userMarker "hello there" = false ∧
    chat ("User input: tell me the rate " ++ userMarker ++ "hello there") =
      chatPick (pyLower "hello there") ∧
    chatPick (pyLower "hello there") = "\x7b\"action\": \"refuse\"\x7d" :=
  ⟨rfl, claim_C10 "User input: tell me the rate " "hello there" rfl, rfl⟩

end MockToolkit
